import Mathlib

/-! # MicroOcpp: MeteringService, FirmwareService and Connector

A shallow embedding of

* `src/MicroOcpp/Model/Metering/MeteringService.cpp` (constructor, the
  comma-separated-list validator, and the connector-dispatching entry points),
* the data members and in-class initialisers of
  `src/MicroOcpp/Model/FirmwareManagement/FirmwareService.h`,
* the data members and in-class initialisers of
  `src/ArduinoOcpp/Tasks/ChargeControl/Connector.h`,

followed by the theorems that settle the claims C1 .. C10.

Conventions.  A C++ `int` is an `Int` together with the range predicate
`IsInt`; `unsigned int` and `size_t` are `Nat`.  The two integer conversions the
source performs, `(int) connectors.size()` and `(size_t) connectorId`, are the
wrapping conversions `castInt` and `castSizeT`.  A pointer that may be null is
an `Option`.  An operation that would index the connector vector out of range,
or read a character behind the terminating NUL, yields `none` / an error value.
-/

namespace MicroOcpp

/-! ## Machine integers -/

/-- Largest value of a 32-bit C++ `int`. -/
def INT_MAX : Int := 2147483647

/-- Smallest value of a 32-bit C++ `int`. -/
def INT_MIN : Int := -2147483648

/-- Range predicate of a 32-bit C++ `int`. -/
def IsInt (x : Int) : Prop := INT_MIN ≤ x ∧ x ≤ INT_MAX

instance (x : Int) : Decidable (IsInt x) := by
  unfold IsInt; exact inferInstance

/-- Conversion `(int) n` of a `size_t`: reduction modulo 2^32 into the signed range. -/
def castInt (n : Nat) : Int := ((n : Int) + 2147483648) % 4294967296 - 2147483648

/-- Conversion `(size_t) x` of an `int` (64-bit `size_t`): reduction modulo 2^64. -/
def castSizeT (x : Int) : Nat := (x % 18446744073709551616).toNat

/-! ## Collaborators of the MeteringService that are declared outside `src/` -/

/-- Modelled from the spec: `Transaction` (Transactions/Transaction.h is absent).  The
metering service only calls `getConnectorId()` on it, an unsigned connector id as in
`abortTxMeterData(unsigned int connectorId)`. -/
structure Transaction where
  connectorId : Nat
  txNr : Nat
deriving DecidableEq, Repr

/-- Accessor `Transaction::getConnectorId()`. -/
def Transaction.getConnectorId (t : Transaction) : Nat := t.connectorId

/-- Modelled from the spec: `Request` (Core/Request.h is absent): "Each Request carries an
absolute timeout".  `operation` is the payload handed to `makeRequest`, `timeout` the
timeout in milliseconds. -/
structure Request (op : Type) where
  operation : op
  timeout : Nat
deriving DecidableEq, Repr

/-- Modelled from the spec: `makeRequest(std::move(msg))` (Core/Request.h is absent); the
timeout a fresh request starts with is the parameter `defaultTimeout`. -/
def makeRequest {op : Type} (defaultTimeout : Nat) (msg : op) : Request op :=
  { operation := msg, timeout := defaultTimeout }

/-- Modelled from the spec: `Request::setTimeout(timeout)` (Core/Request.h is absent)
stores the timeout the request carries. -/
def Request.setTimeout {op : Type} (r : Request op) (timeout : Nat) : Request op :=
  { r with timeout := timeout }

/-- The methods of `MeteringConnector` the service dispatches to. -/
inductive ConnectorMethod where
  | addMeterValueSampler
  | readTxEnergyMeter
  | takeTriggeredMeterValues
  | beginTxMeterData
  | endTxMeterData
  | abortTxMeterData
  | getStopTxMeterData
deriving DecidableEq, Repr

/-- What a `MeteringConnector` method can touch: the `Context` and the `MeterStore` it holds
by reference, and the connector object itself. -/
structure Reach (χ μ κ : Type) where
  context : χ
  meterStore : μ
  self : κ

/-- The class `MeteringConnector` (Metering/MeteringConnector.h is absent) as a parameter:
its constructor, one state transformer per method, and the observer `existsSampler`.
`V` are sampled values, `O` the MeterValues operation, `D` the transaction meter data,
`S` a sampler, `R` a reading context. -/
structure MeteringConnectorOps (χ μ κ S R V O D : Type) where
  construct : χ → Int → μ → κ
  addMeterValueSampler : Reach χ μ κ → S → Reach χ μ κ
  readTxEnergyMeter : Reach χ μ κ → R → Reach χ μ κ × Option V
  takeTriggeredMeterValues : Reach χ μ κ → Reach χ μ κ × Option O
  beginTxMeterData : Reach χ μ κ → Transaction → Reach χ μ κ
  endTxMeterData : Reach χ μ κ → Transaction → Reach χ μ κ × Option D
  abortTxMeterData : Reach χ μ κ → Reach χ μ κ
  getStopTxMeterData : Reach χ μ κ → Transaction → Reach χ μ κ × Option D
  existsSampler : κ → List Char → Bool

/-! ## MeteringService -/

/-- Data members of `MeteringService`: the context reference, the meter store and the
vector of owned connectors. -/
structure MeteringService (χ μ κ : Type) where
  context : χ
  meterStore : μ
  connectors : List κ

/-- Result of one entry-point call: the returned value, the service afterwards, and the
connector methods that were invoked, as (index, method) in call order. -/
structure Outcome (ρ χ μ κ : Type) where
  ret : ρ
  svc : MeteringService χ μ κ
  invoked : List (Nat × ConnectorMethod)

/-- The call `connectors[i]->m(...)`: `none` when `i` is not an index of the vector. -/
def MeteringService.callConnector {χ μ κ ρ : Type} (s : MeteringService χ μ κ) (i : Nat)
    (m : ConnectorMethod) (f : Reach χ μ κ → Reach χ μ κ × ρ) : Option (Outcome ρ χ μ κ) :=
  match s.connectors[i]? with
  | none => none
  | some c =>
    let r := f { context := s.context, meterStore := s.meterStore, self := c }
    some { ret := r.2
           svc := { context := r.1.context, meterStore := r.1.meterStore,
                    connectors := s.connectors.set i r.1.self }
           invoked := [(i, m)] }

/-- The loop `for (int i = 0; i < numConn; i++) connectors.emplace_back(new
MeteringConnector(context, i, meterStore))`; `fuel` bounds the number of passes. -/
def emplaceConnectors {χ μ κ : Type} (mk : χ → Int → μ → κ) (context : χ) (meterStore : μ)
    (numConn : Int) : Nat → Int → List κ → List κ
  | 0, _, connectors => connectors
  | fuel + 1, i, connectors =>
    if i < numConn then
      emplaceConnectors mk context meterStore numConn fuel (i + 1)
        (connectors ++ [mk context i meterStore])
    else connectors

/-- Constructor `MeteringService::MeteringService(context, numConn, filesystem)`, the part
that fills `connectors`; `meterStore` is the store built from `filesystem`.  The call
`connectors.reserve(numConn)` sets the capacity only and has no counterpart here; the model
is meant for `numConn >= 0`. -/
def MeteringService.construct {χ μ κ S R V O D : Type} (ops : MeteringConnectorOps χ μ κ S R V O D)
    (context : χ) (numConn : Int) (meterStore : μ) : MeteringService χ μ κ :=
  { context := context
    meterStore := meterStore
    connectors := emplaceConnectors ops.construct context meterStore numConn numConn.toNat 0 [] }

/-- Factory defaults declared by the constructor (`declareConfiguration<const char*>`). -/
def factoryDefaults : List (String × String) :=
  [ ("MeterValuesSampledData", "Energy.Active.Import.Register,Power.Active.Import"),
    ("StopTxnSampledData", ""),
    ("MeterValuesAlignedData", "Energy.Active.Import.Register,Power.Active.Import"),
    ("StopTxnAlignedData", "") ]

/-- The two validators the constructor registers. -/
inductive ValidatorKind where
  | validateSelectString
  | VALIDATE_UNSIGNED_INT
deriving DecidableEq, Repr

/-- The `registerConfigurationValidator` calls of the constructor, in source order. -/
def registeredValidators : List (String × ValidatorKind) :=
  [ ("MeterValuesSampledData", .validateSelectString),
    ("StopTxnSampledData", .validateSelectString),
    ("MeterValuesAlignedData", .validateSelectString),
    ("StopTxnAlignedData", .validateSelectString),
    ("MeterValueSampleInterval", .VALIDATE_UNSIGNED_INT),
    ("ClockAlignedDataInterval", .VALIDATE_UNSIGNED_INT) ]

section EntryPoints

variable {χ μ κ S R V O D : Type}

/-- Method `void MeteringService::addMeterValueSampler(int connectorId, sampler)`. -/
def MeteringService.addMeterValueSampler (ops : MeteringConnectorOps χ μ κ S R V O D)
    (s : MeteringService χ μ κ) (connectorId : Int) (meterValueSampler : S) :
    Option (Outcome Unit χ μ κ) :=
  if connectorId < 0 ∨ connectorId ≥ castInt s.connectors.length then
    some { ret := (), svc := s, invoked := [] }
  else
    s.callConnector (castSizeT connectorId) .addMeterValueSampler
      (fun r => (ops.addMeterValueSampler r meterValueSampler, ()))

/-- Method `std::unique_ptr<SampledValue> MeteringService::readTxEnergyMeter(int connectorId,
ReadingContext context)`. -/
def MeteringService.readTxEnergyMeter (ops : MeteringConnectorOps χ μ κ S R V O D)
    (s : MeteringService χ μ κ) (connectorId : Int) (context : R) :
    Option (Outcome (Option V) χ μ κ) :=
  if connectorId < 0 ∨ castSizeT connectorId ≥ s.connectors.length then
    some { ret := none, svc := s, invoked := [] }
  else
    s.callConnector (castSizeT connectorId) .readTxEnergyMeter
      (fun r => ops.readTxEnergyMeter r context)

/-- Method `std::unique_ptr<Request> MeteringService::takeTriggeredMeterValues(int
connectorId)`; `defaultTimeout` is the timeout `makeRequest` starts a request with. -/
def MeteringService.takeTriggeredMeterValues (ops : MeteringConnectorOps χ μ κ S R V O D)
    (defaultTimeout : Nat) (s : MeteringService χ μ κ) (connectorId : Int) :
    Option (Outcome (Option (Request O)) χ μ κ) :=
  if connectorId < 0 ∨ connectorId ≥ castInt s.connectors.length then
    some { ret := none, svc := s, invoked := [] }
  else
    match s.callConnector (castSizeT connectorId) .takeTriggeredMeterValues
        ops.takeTriggeredMeterValues with
    | none => none
    | some o =>
      match o.ret with
      | some msg =>
        let meterValues := makeRequest defaultTimeout msg
        let meterValues := meterValues.setTimeout 120000
        some { ret := some meterValues, svc := o.svc, invoked := o.invoked }
      | none => some { ret := none, svc := o.svc, invoked := o.invoked }

/-- Method `void MeteringService::beginTxMeterData(Transaction *transaction)`. -/
def MeteringService.beginTxMeterData (ops : MeteringConnectorOps χ μ κ S R V O D)
    (s : MeteringService χ μ κ) (transaction : Option Transaction) :
    Option (Outcome Unit χ μ κ) :=
  match transaction with
  | none => some { ret := (), svc := s, invoked := [] }
  | some tx =>
    let connectorId := tx.getConnectorId
    if connectorId ≥ s.connectors.length then
      some { ret := (), svc := s, invoked := [] }
    else
      s.callConnector connectorId .beginTxMeterData (fun r => (ops.beginTxMeterData r tx, ()))

/-- Method `std::shared_ptr<TransactionMeterData> MeteringService::endTxMeterData(Transaction
*transaction)`. -/
def MeteringService.endTxMeterData (ops : MeteringConnectorOps χ μ κ S R V O D)
    (s : MeteringService χ μ κ) (transaction : Option Transaction) :
    Option (Outcome (Option D) χ μ κ) :=
  match transaction with
  | none => some { ret := none, svc := s, invoked := [] }
  | some tx =>
    let connectorId := tx.getConnectorId
    if connectorId ≥ s.connectors.length then
      some { ret := none, svc := s, invoked := [] }
    else
      s.callConnector connectorId .endTxMeterData (fun r => ops.endTxMeterData r tx)

/-- Method `void MeteringService::abortTxMeterData(unsigned int connectorId)`. -/
def MeteringService.abortTxMeterData (ops : MeteringConnectorOps χ μ κ S R V O D)
    (s : MeteringService χ μ κ) (connectorId : Nat) : Option (Outcome Unit χ μ κ) :=
  if connectorId ≥ s.connectors.length then
    some { ret := (), svc := s, invoked := [] }
  else
    s.callConnector connectorId .abortTxMeterData (fun r => (ops.abortTxMeterData r, ()))

/-- Method `std::shared_ptr<TransactionMeterData> MeteringService::getStopTxMeterData(
Transaction *transaction)`. -/
def MeteringService.getStopTxMeterData (ops : MeteringConnectorOps χ μ κ S R V O D)
    (s : MeteringService χ μ κ) (transaction : Option Transaction) :
    Option (Outcome (Option D) χ μ κ) :=
  match transaction with
  | none => some { ret := none, svc := s, invoked := [] }
  | some tx =>
    let connectorId := tx.getConnectorId
    if connectorId ≥ s.connectors.length then
      some { ret := none, svc := s, invoked := [] }
    else
      s.callConnector connectorId .getStopTxMeterData (fun r => ops.getStopTxMeterData r tx)

end EntryPoints

/-! ## The validator of the comma-separated measurand lists -/

/-- The terminating character of a C string. -/
def NUL : Char := Char.ofNat 0

/-- The separator of the comma-separated list. -/
def COMMA : Char := ','

/-- The bytes behind the pointer `csl`: the characters of the string, then the NUL. -/
def memory (csl : List Char) : List Char := csl ++ [NUL]

/-- The read `*p` for `p = csl + i`: `none` when `i` lies behind the terminating NUL. -/
def deref (csl : List Char) (i : Nat) : Option Char := (memory csl)[i]?

/-- The ways a run of the validator can go wrong in the model. -/
inductive Fault where
  | outOfBounds
  | outOfFuel
deriving DecidableEq, Repr

/-- What a run of the validator does besides computing its verdict: character reads, by
offset from `csl`, and calls `connectors[cId]->existsSampler(l, r - l)`, by connector index
and by the `r - l` characters starting at `l`. -/
inductive Event where
  | read (pos : Nat)
  | existsSampler (cId : Nat) (entry : List Char)
deriving DecidableEq, Repr

/-- The loop `while (*r != NUL && *r != ',') r++`; yields the final `r`. -/
def scanEntry (csl : List Char) : Nat → Nat → Except Fault (Nat × List Event)
  | 0, _ => .error .outOfFuel
  | fuel + 1, r =>
    match deref csl r with
    | none => .error .outOfBounds
    | some c =>
      if c ≠ NUL ∧ c ≠ COMMA then
        match scanEntry csl fuel (r + 1) with
        | .error e => .error e
        | .ok (r2, log) => .ok (r2, Event.read r :: log)
      else .ok (r, [Event.read r])

/-- The loop `for (cId = 0; cId < connectors.size(); cId++) if (connectors[cId]->
existsSampler(l, r - l)) { found = true; break; }` over the connectors from `cId` on;
yields `found`. -/
def findSampler {κ : Type} (existsSampler : κ → List Char → Bool) (entry : List Char) :
    List κ → Nat → Bool × List Event
  | [], _ => (false, [])
  | c :: rest, cId =>
    if existsSampler c entry then (true, [Event.existsSampler cId entry])
    else
      let r := findSampler existsSampler entry rest (cId + 1)
      (r.1, Event.existsSampler cId entry :: r.2)

/-- How one pass through the body of the outer loop ends. -/
inductive Pass where
  | leave (isValid : Bool)
  | again (l : Nat)
deriving DecidableEq, Repr

/-- One evaluation of the condition `*l` and, when it holds, of the body of the outer loop.
`leave` is the exit through the condition or through `break`, `again` the return to the
loop head with the new `l`. -/
def outerPass {κ : Type} (existsSampler : κ → List Char → Bool) (connectors : List κ)
    (csl : List Char) (isValid : Bool) (l : Nat) : Except Fault (Pass × List Event) :=
  match deref csl l with
  | none => .error .outOfBounds
  | some c =>
    if c = NUL then .ok (.leave isValid, [Event.read l])
    else if c = COMMA then .ok (.again (l + 1), [Event.read l])
    else
      match scanEntry csl (csl.length + 1) (l + 1) with
      | .error e => .error e
      | .ok (r, log) =>
        let entry := ((memory csl).drop l).take (r - l)
        let found := findSampler existsSampler entry connectors 0
        if !found.1 then .ok (.leave false, Event.read l :: log ++ found.2)
        else .ok (.again r, Event.read l :: log ++ found.2)

/-- The outer loop `while (*l) { ... }` followed by `return isValid`. -/
def scanList {κ : Type} (existsSampler : κ → List Char → Bool) (connectors : List κ)
    (csl : List Char) : Nat → Bool → Nat → Except Fault (Bool × List Event)
  | 0, _, _ => .error .outOfFuel
  | fuel + 1, isValid, l =>
    match outerPass existsSampler connectors csl isValid l with
    | .error e => .error e
    | .ok (.leave v, log) => .ok (v, log)
    | .ok (.again l2, log) =>
      match scanList existsSampler connectors csl fuel isValid l2 with
      | .error e => .error e
      | .ok (v, log2) => .ok (v, log ++ log2)

/-- The lambda `validateSelectString` of the constructor, run on the string `csl` against
the connectors the service holds at the time of the call. -/
def validateSelectString {χ μ κ S R V O D : Type} (ops : MeteringConnectorOps χ μ κ S R V O D)
    (s : MeteringService χ μ κ) (csl : List Char) : Except Fault (Bool × List Event) :=
  scanList ops.existsSampler s.connectors csl (csl.length + 1) true 0

/-- The value the validator returns: `none` when the run faults. -/
def verdict {χ μ κ S R V O D : Type} (ops : MeteringConnectorOps χ μ κ S R V O D)
    (s : MeteringService χ μ κ) (csl : List Char) : Option Bool :=
  match validateSelectString ops s csl with
  | .ok (v, _) => some v
  | .error _ => none

/-- The entries of a comma-separated list as the specification describes them: the pieces
between the commas, the empty pieces left out. -/
def entriesOf (csl : List Char) : List (List Char) :=
  (csl.splitOn COMMA).filter (fun e => !e.isEmpty)

/-- The verdict the specification describes: every entry is a measurand for which
`existsSampler` holds on at least one connector. -/
def allEntriesKnown {κ : Type} (existsSampler : κ → List Char → Bool) (connectors : List κ)
    (csl : List Char) : Bool :=
  (entriesOf csl).all (fun e => connectors.any (fun c => existsSampler c e))

/-! ## FirmwareService -/

/-- Enum `DownloadStatus`. -/
inductive DownloadStatus where
  | NotDownloaded
  | Downloaded
  | DownloadFailed
deriving DecidableEq, Repr

/-- Enum `InstallationStatus`. -/
inductive InstallationStatus where
  | NotInstalled
  | Installed
  | InstallationFailed
deriving DecidableEq, Repr

namespace Ocpp16

/-- Modelled from the spec: `Ocpp16::FirmwareStatus` (FirmwareManagement/FirmwareStatus.h is
absent), the statuses a FirmwareStatusNotification reports in section 4.3. -/
inductive FirmwareStatus where
  | Downloaded
  | DownloadFailed
  | Downloading
  | Idle
  | InstallationFailed
  | Installing
  | Installed
deriving DecidableEq, Repr

end Ocpp16

/-- Enum `FirmwareService::UpdateStage`, in declaration order. -/
inductive UpdateStage where
  | Idle
  | AwaitDownload
  | Downloading
  | AfterDownload
  | AwaitInstallation
  | Installing
  | Installed
  | InternalError
deriving DecidableEq, Repr

/-- The enumerator value of an `UpdateStage`. -/
def UpdateStage.toNat : UpdateStage → Nat
  | .Idle => 0
  | .AwaitDownload => 1
  | .Downloading => 2
  | .AfterDownload => 3
  | .AwaitInstallation => 4
  | .Installing => 5
  | .Installed => 6
  | .InternalError => 7

/-- The stage that follows in the order Idle, AwaitDownload, Downloading, AfterDownload,
AwaitInstallation, Installing, Installed. -/
def UpdateStage.next : UpdateStage → Option UpdateStage
  | .Idle => some .AwaitDownload
  | .AwaitDownload => some .Downloading
  | .Downloading => some .AfterDownload
  | .AfterDownload => some .AwaitInstallation
  | .AwaitInstallation => some .Installing
  | .Installing => some .Installed
  | .Installed => none
  | .InternalError => none

/-- Data members of `FirmwareService`.  `previousBuildNumberString` is the value held by the
`std::shared_ptr<Configuration>`; `retreiveDate` is a `Timestamp` in seconds.  The callback
slots, the FTP client and the FTP download are inputs of a tick and not members here. -/
structure FirmwareService where
  previousBuildNumberString : String
  buildNumber : String
  downloadIssued : Bool
  ftpDownloadStatus : DownloadStatus
  installationIssued : Bool
  lastReportedStatus : Ocpp16.FirmwareStatus
  checkedSuccessfulFwUpdate : Bool
  location : String
  retreiveDate : Nat
  retries : Nat
  retryInterval : Nat
  delayTransition : Nat
  timestampTransition : Nat
  stage : UpdateStage
deriving DecidableEq, Repr

/-- A newly constructed `FirmwareService`, as the in-class initialisers of the header leave
it.  The body of the constructor is in FirmwareService.cpp, which is absent; the one member
without an initialiser that outlives the object is the Configuration behind
`previousBuildNumberString`, whose stored value is the argument `storedBuildNumber`;
`defaultTimestamp` is the value of a default-constructed `Timestamp`. -/
def FirmwareService.construct (storedBuildNumber : String) (defaultTimestamp : Nat) :
    FirmwareService :=
  { previousBuildNumberString := storedBuildNumber
    buildNumber := ""
    downloadIssued := false
    ftpDownloadStatus := .NotDownloaded
    installationIssued := false
    lastReportedStatus := .Idle
    checkedSuccessfulFwUpdate := false
    location := ""
    retreiveDate := defaultTimestamp
    retries := 0
    retryInterval := 0
    delayTransition := 0
    timestampTransition := 0
    stage := .Idle }

/-- What one tick observes of the collaborators of the FirmwareService. -/
structure TickInput where
  now : Nat
  downloadStatus : DownloadStatus
  installationStatus : InstallationStatus
  transactionRunning : Bool
deriving DecidableEq, Repr

/-- Modelled from the spec: `FirmwareService::resetStage()` (FirmwareService.cpp is absent):
"clear pending state", the stage goes back to Idle. -/
def FirmwareService.resetStage (fw : FirmwareService) : FirmwareService :=
  { fw with stage := .Idle, downloadIssued := false, installationIssued := false }

/-- Modelled from the spec: the status report of FirmwareService.cpp, which is absent: "The
service emits `FirmwareStatusNotification` exactly once per distinct status transition".
Yields the service and the notifications sent. -/
def FirmwareService.report (status : Ocpp16.FirmwareStatus) (fw : FirmwareService) :
    FirmwareService × List Ocpp16.FirmwareStatus :=
  if fw.lastReportedStatus = status then (fw, [])
  else ({ fw with lastReportedStatus := status }, [status])

/-- Modelled from the spec: the retry policy of FirmwareService.cpp, which is absent: "if
`retries > 0`, decrement and schedule a retransition to AwaitDownload after `retryInterval`
seconds (reporting ... only on the last attempt)", "exhausted retries result in
InternalError". -/
def FirmwareService.retryOrFail (status : Ocpp16.FirmwareStatus) (inp : TickInput)
    (fw : FirmwareService) : FirmwareService × List Ocpp16.FirmwareStatus :=
  if fw.retries > 0 then
    ({ fw with retries := fw.retries - 1, retreiveDate := inp.now + fw.retryInterval,
               stage := .AwaitDownload }, [])
  else FirmwareService.report status { fw with stage := .InternalError }

/-- Modelled from the spec: the stage machine of `FirmwareService::loop()`
(FirmwareService.cpp is absent), section 4.3.  AwaitDownload waits until the wall clock
reaches `retreiveDate`; Downloading polls the download status; AfterDownload advances to
AwaitInstallation; AwaitInstallation waits until no transaction runs; Installing polls the
installation status and on success persists the build number; Installed and InternalError go
back to Idle.  "Advance to AfterDownload then AwaitInstallation" is read as one stage per
tick, as "strictly sequential, no skipping forward" asks. -/
def FirmwareService.advance (inp : TickInput) (fw : FirmwareService) :
    FirmwareService × List Ocpp16.FirmwareStatus :=
  match fw.stage with
  | .Idle => (fw, [])
  | .AwaitDownload =>
    if inp.now ≥ fw.retreiveDate then
      FirmwareService.report .Downloading { fw with stage := .Downloading }
    else (fw, [])
  | .Downloading =>
    match inp.downloadStatus with
    | .NotDownloaded => (fw, [])
    | .Downloaded => FirmwareService.report .Downloaded { fw with stage := .AfterDownload }
    | .DownloadFailed => FirmwareService.retryOrFail .DownloadFailed inp fw
  | .AfterDownload => ({ fw with stage := .AwaitInstallation }, [])
  | .AwaitInstallation =>
    if inp.transactionRunning then (fw, [])
    else FirmwareService.report .Installing { fw with stage := .Installing }
  | .Installing =>
    match inp.installationStatus with
    | .NotInstalled => (fw, [])
    | .Installed =>
      FirmwareService.report .Installed
        { fw with stage := .Installed, previousBuildNumberString := fw.buildNumber }
    | .InstallationFailed =>
      let r := FirmwareService.report .InstallationFailed fw
      let r2 := FirmwareService.retryOrFail .InstallationFailed inp r.1
      (r2.1, r.2 ++ r2.2)
  | .Installed => (fw.resetStage, [])
  | .InternalError => (fw.resetStage, [])

/-- Modelled from the spec: `FirmwareService::loop()` (FirmwareService.cpp is absent), one
tick.  "On the first loop tick after boot, if `previousBuildNumberString` differs from the
current `buildNumber`, this is a successful update — clear pending state and report
`Installed` if not yet reported"; every other tick is a step of the stage machine.  Yields
the service and the notifications sent. -/
def FirmwareService.loop (inp : TickInput) (fw : FirmwareService) :
    FirmwareService × List Ocpp16.FirmwareStatus :=
  if fw.checkedSuccessfulFwUpdate then FirmwareService.advance inp fw
  else if fw.previousBuildNumberString ≠ fw.buildNumber then
    FirmwareService.report .Installed
      { fw.resetStage with checkedSuccessfulFwUpdate := true,
                           previousBuildNumberString := fw.buildNumber }
  else FirmwareService.advance inp { fw with checkedSuccessfulFwUpdate := true }

end MicroOcpp

/-! ## Connector (ArduinoOcpp) -/

namespace ArduinoOcpp

/-- Macro `AVAILABILITY_OPERATIVE`. -/
def AVAILABILITY_OPERATIVE : Int := 2

/-- Macro `AVAILABILITY_INOPERATIVE_SCHEDULED`. -/
def AVAILABILITY_INOPERATIVE_SCHEDULED : Int := 1

/-- Macro `AVAILABILITY_INOPERATIVE`. -/
def AVAILABILITY_INOPERATIVE : Int := 0

/-- Modelled from the spec: `OcppEvseState` (ChargeControl/OcppEvseState.h is absent): the
status ladder of section 1, and `NOT_SET`, the value the header initialises with. -/
inductive OcppEvseState where
  | Available
  | Preparing
  | Charging
  | SuspendedEVSE
  | SuspendedEV
  | Finishing
  | Reserved
  | Unavailable
  | Faulted
  | NOT_SET
deriving DecidableEq, Repr

/-- Data members of `Connector` that are plain values.  `availability` is the value held by
the `Configuration<int>`; the sampler slots, the other configuration handles and the
transaction pointer are not members here. -/
structure Connector where
  connectorId : Int
  availability : Int
  availabilityVolatile : Int
  currentStatus : OcppEvseState
  reportedStatus : OcppEvseState
  t_statusTransition : Nat
  freeVendTrackPlugged : Bool
deriving DecidableEq, Repr

/-- A newly constructed `Connector(context, connectorId)`, as the in-class initialisers of
the header leave it.  The body of the constructor is in Connector.cpp, which is absent;
`storedAvailability` is the value stored in the Configuration behind `availability`. -/
def Connector.construct (connectorId : Int) (storedAvailability : Int) : Connector :=
  { connectorId := connectorId
    availability := storedAvailability
    availabilityVolatile := AVAILABILITY_OPERATIVE
    currentStatus := .NOT_SET
    reportedStatus := .NOT_SET
    t_statusTransition := 0
    freeVendTrackPlugged := false }

/-- Modelled from the spec: `Connector::setAvailabilityVolatile(bool available)`
(Connector.cpp is absent; the header says "set inoperative state but keep only until reboot
at most").  It writes the volatile overlay; the level it writes is the parameter `level`. -/
def Connector.setAvailabilityVolatile (level : Connector → Bool → Int) (c : Connector)
    (available : Bool) : Connector :=
  { c with availabilityVolatile := level c available }

/-- Modelled from the spec: a restart ("a volatile overlay that clears on restart").  The
process starts anew, so the connector after the restart is a newly constructed one; what it
inherits from the connector `before` is the value stored in the Configuration. -/
def Connector.afterRestart (before : Connector) : Connector :=
  Connector.construct before.connectorId before.availability

end ArduinoOcpp

/-! ## Concrete instances -/

namespace MicroOcpp

/-- A small connector class to evaluate the service on: the state of a connector is its id,
every method leaves it alone, the reading methods return the id when it is odd and null
otherwise, and the sampler known on connector `i` is the measurand made of `i + 1`
letters `E`. -/
def sampleOps : MeteringConnectorOps Unit Unit Int Unit Unit Int Int Int :=
  { construct := fun _ i _ => i
    addMeterValueSampler := fun r _ => r
    readTxEnergyMeter := fun r _ => (r, if r.self % 2 = 1 then some r.self else none)
    takeTriggeredMeterValues := fun r => (r, if r.self % 2 = 1 then some r.self else none)
    beginTxMeterData := fun r _ => r
    endTxMeterData := fun r _ => (r, if r.self % 2 = 1 then some r.self else none)
    abortTxMeterData := fun r => r
    getStopTxMeterData := fun r _ => (r, if r.self % 2 = 1 then some r.self else none)
    existsSampler := fun c e => e = List.replicate (c.toNat + 1) 'E' }

/-- The service with the two connectors 0 and 1 of `sampleOps`. -/
def sampleService : MeteringService Unit Unit Int :=
  MeteringService.construct sampleOps () 2 ()

end MicroOcpp

/-! ## Theorems: the entry points of the MeteringService -/

namespace MicroOcpp

section EntryPointTheorems

variable {χ μ κ S R V O D : Type}

/-- On an index of the vector the connector call returns. -/
theorem callConnector_of_lt {ρ : Type} (s : MeteringService χ μ κ) (i : Nat)
    (m : ConnectorMethod) (f : Reach χ μ κ → Reach χ μ κ × ρ) (h : i < s.connectors.length) :
    ∃ o, s.callConnector i m f = some o ∧ o.invoked = [(i, m)] ∧
      o.ret = (f { context := s.context, meterStore := s.meterStore,
                   self := s.connectors[i] }).2 := by
  unfold MeteringService.callConnector
  rw [List.getElem?_eq_getElem h]
  exact ⟨_, rfl, rfl, rfl⟩

/-- A connector id that passes the guard `connectorId < 0 || connectorId >= (int) size` is,
converted to `size_t`, an index of the vector. -/
theorem castSizeT_lt_of_guard (n : Nat) (connectorId : Int)
    (h : ¬ (connectorId < 0 ∨ connectorId ≥ castInt n)) : castSizeT connectorId < n := by
  unfold castInt at h
  unfold castSizeT
  omega

/-- The conversion `(int) n` is exact up to `INT_MAX`. -/
theorem castInt_of_le (n : Nat) (h : (n : Int) ≤ INT_MAX) : castInt n = n := by
  unfold INT_MAX at h
  unfold castInt
  omega

/-- The conversion `(size_t) x` is exact on a non-negative `int`. -/
theorem castSizeT_of_nonneg (x : Int) (h0 : 0 ≤ x) (h : x ≤ INT_MAX) :
    castSizeT x = x.toNat := by
  unfold INT_MAX at h
  unfold castSizeT
  omega

/-- The connectors the constructor loop appends, from counter `i` on. -/
theorem emplaceConnectors_eq (mk : χ → Int → μ → κ) (context : χ) (meterStore : μ)
    (numConn : Int) :
    ∀ (fuel : Nat) (i : Int) (acc : List κ), i ≤ numConn → fuel = (numConn - i).toNat →
      emplaceConnectors mk context meterStore numConn fuel i acc
        = acc ++ (List.range fuel).map (fun k => mk context (i + (k : Nat)) meterStore) := by
  intro fuel
  induction fuel with
  | zero => intro i acc _ _; simp [emplaceConnectors]
  | succ n ih =>
    intro i acc hi hf
    have hlt : i < numConn := by omega
    rw [emplaceConnectors, if_pos hlt, ih (i + 1) _ (by omega) (by omega),
      List.range_succ_eq_map]
    simp only [List.map_cons, List.map_map, List.append_assoc, List.singleton_append,
      Nat.cast_zero, add_zero]
    congr 2
    apply List.map_congr_left
    intro k _
    simp only [Function.comp_apply, Nat.cast_succ]
    congr 1
    omega

/-- The connector vector of a constructed service. -/
theorem construct_connectors (ops : MeteringConnectorOps χ μ κ S R V O D) (context : χ)
    (numConn : Int) (meterStore : μ) (h0 : 0 ≤ numConn) :
    (MeteringService.construct ops context numConn meterStore).connectors
      = (List.range numConn.toNat).map (fun k => ops.construct context (k : Nat) meterStore) := by
  unfold MeteringService.construct
  simp only
  rw [emplaceConnectors_eq _ _ _ _ _ 0 [] h0 (by simp)]
  simp

/-- C1: when the connector id (given directly as an `int` or as an `unsigned int`, or read
from the transaction) is outside `0 .. connectors.size() - 1`, or the transaction pointer is
null, each of the seven entry points invokes no connector, leaves the service as it was, and
returns null where it returns a pointer. -/
theorem C1_rejected_call_is_inert (ops : MeteringConnectorOps χ μ κ S R V O D)
    (s : MeteringService χ μ κ) (defaultTimeout : Nat)
    (connectorId : Int) (hint : IsInt connectorId)
    (hout : connectorId < 0 ∨ (s.connectors.length : Int) ≤ connectorId)
    (uConnectorId : Nat) (huout : s.connectors.length ≤ uConnectorId)
    (transaction : Option Transaction)
    (htx : ∀ tx, transaction = some tx → s.connectors.length ≤ tx.getConnectorId)
    (meterValueSampler : S) (context : R) :
    s.addMeterValueSampler ops connectorId meterValueSampler
        = some { ret := (), svc := s, invoked := [] } ∧
    s.readTxEnergyMeter ops connectorId context
        = some { ret := none, svc := s, invoked := [] } ∧
    s.takeTriggeredMeterValues ops defaultTimeout connectorId
        = some { ret := none, svc := s, invoked := [] } ∧
    s.abortTxMeterData ops uConnectorId = some { ret := (), svc := s, invoked := [] } ∧
    s.beginTxMeterData ops transaction = some { ret := (), svc := s, invoked := [] } ∧
    s.endTxMeterData ops transaction = some { ret := none, svc := s, invoked := [] } ∧
    s.getStopTxMeterData ops transaction = some { ret := none, svc := s, invoked := [] } := by
  have hI : connectorId < 0 ∨ connectorId ≥ castInt s.connectors.length := by
    unfold IsInt INT_MIN INT_MAX at hint
    unfold castInt
    omega
  have hZ : connectorId < 0 ∨ castSizeT connectorId ≥ s.connectors.length := by
    unfold IsInt INT_MIN INT_MAX at hint
    unfold castSizeT
    omega
  refine ⟨?_, ?_, ?_, ?_, ?_, ?_, ?_⟩
  · unfold MeteringService.addMeterValueSampler
    rw [if_pos hI]
  · unfold MeteringService.readTxEnergyMeter
    rw [if_pos hZ]
  · unfold MeteringService.takeTriggeredMeterValues
    rw [if_pos hI]
  · unfold MeteringService.abortTxMeterData
    rw [if_pos huout]
  · unfold MeteringService.beginTxMeterData
    cases transaction with
    | none => rfl
    | some tx => simp only []; rw [if_pos (htx tx rfl)]
  · unfold MeteringService.endTxMeterData
    cases transaction with
    | none => rfl
    | some tx => simp only []; rw [if_pos (htx tx rfl)]
  · unfold MeteringService.getStopTxMeterData
    cases transaction with
    | none => rfl
    | some tx => simp only []; rw [if_pos (htx tx rfl)]

/-- C1 at a concrete input: the two-connector sample service, the `int` id 2, the
`unsigned` id 5 and a transaction on connector 9. -/
theorem C1_rejected_call_is_inert_witness :
    (IsInt 2 ∧ ((2 : Int) < 0 ∨ (sampleService.connectors.length : Int) ≤ 2) ∧
      sampleService.connectors.length ≤ 5 ∧
      (∀ tx, some ({ connectorId := 9, txNr := 1 } : Transaction) = some tx →
        sampleService.connectors.length ≤ tx.getConnectorId)) ∧
    (sampleService.addMeterValueSampler sampleOps 2 ()
        = some { ret := (), svc := sampleService, invoked := [] } ∧
     sampleService.readTxEnergyMeter sampleOps 2 ()
        = some { ret := none, svc := sampleService, invoked := [] } ∧
     sampleService.takeTriggeredMeterValues sampleOps 40000 2
        = some { ret := none, svc := sampleService, invoked := [] } ∧
     sampleService.abortTxMeterData sampleOps 5
        = some { ret := (), svc := sampleService, invoked := [] } ∧
     sampleService.beginTxMeterData sampleOps (some { connectorId := 9, txNr := 1 })
        = some { ret := (), svc := sampleService, invoked := [] } ∧
     sampleService.endTxMeterData sampleOps (some { connectorId := 9, txNr := 1 })
        = some { ret := none, svc := sampleService, invoked := [] } ∧
     sampleService.getStopTxMeterData sampleOps (some { connectorId := 9, txNr := 1 })
        = some { ret := none, svc := sampleService, invoked := [] }) :=
  have h1 : IsInt 2 := by decide
  have h2 : (2 : Int) < 0 ∨ (sampleService.connectors.length : Int) ≤ 2 := by decide
  have h3 : sampleService.connectors.length ≤ 5 := by decide
  have h4 : ∀ tx, some ({ connectorId := 9, txNr := 1 } : Transaction) = some tx →
      sampleService.connectors.length ≤ tx.getConnectorId := by
    intro tx h
    cases h
    decide
  ⟨⟨h1, h2, h3, h4⟩,
    C1_rejected_call_is_inert sampleOps sampleService 40000 2 h1 h2 5 h3
      (some { connectorId := 9, txNr := 1 }) h4 () ()⟩

/-- C2: `takeTriggeredMeterValues` returns for every connector id; a request it returns
carries the timeout 120000 ms; and it returns a request exactly when the id is in
`0 .. connectors.size() - 1` and the connector with that id yields a message. -/
theorem C2_triggered_meter_values_timeout (ops : MeteringConnectorOps χ μ κ S R V O D)
    (defaultTimeout : Nat) (s : MeteringService χ μ κ) (connectorId : Int)
    (hsize : (s.connectors.length : Int) ≤ INT_MAX) :
    ∃ o, s.takeTriggeredMeterValues ops defaultTimeout connectorId = some o ∧
      (∀ req, o.ret = some req → req.timeout = 120000) ∧
      (o.ret.isSome = true ↔
        (0 ≤ connectorId ∧ connectorId < (s.connectors.length : Int) ∧
          ∃ c, s.connectors[connectorId.toNat]? = some c ∧
            (ops.takeTriggeredMeterValues
              { context := s.context, meterStore := s.meterStore, self := c }).2.isSome
              = true)) := by
  have hc := castInt_of_le _ hsize
  unfold MeteringService.takeTriggeredMeterValues
  by_cases hg : connectorId < 0 ∨ connectorId ≥ castInt s.connectors.length
  · rw [if_pos hg]
    refine ⟨_, rfl, ?_, ?_⟩
    · intro req h; cases h
    · simp only [Option.isSome_none, Bool.false_eq_true, false_iff, not_and]
      intro h0 hlt
      rw [hc] at hg
      omega
  · rw [if_neg hg]
    have hlt := castSizeT_lt_of_guard _ _ hg
    rw [hc] at hg
    have hidx : castSizeT connectorId = connectorId.toNat :=
      castSizeT_of_nonneg _ (by omega) (by omega)
    obtain ⟨o, ho, _, hret⟩ := callConnector_of_lt s (castSizeT connectorId)
      .takeTriggeredMeterValues ops.takeTriggeredMeterValues hlt
    rw [ho]
    simp only []
    have hget : s.connectors[connectorId.toNat]? = some s.connectors[castSizeT connectorId] := by
      rw [List.getElem?_eq_some_iff]
      exact ⟨by omega, by simp only [hidx]⟩
    cases hmsg : o.ret with
    | none =>
      refine ⟨_, rfl, ?_, ?_⟩
      · intro req h; cases h
      · simp only [Option.isSome_none, Bool.false_eq_true, false_iff, not_and, not_exists]
        intro _ _ c hcget
        rw [hget] at hcget
        cases hcget
        rw [← hret, hmsg]
        simp
    | some msg =>
      refine ⟨_, rfl, ?_, ?_⟩
      · intro req h
        cases h
        rfl
      · simp only [Option.isSome_some, true_iff]
        refine ⟨by omega, by omega, _, hget, ?_⟩
        rw [← hret, hmsg]
        rfl

/-- C2 at a concrete input: connector 1 of the sample service yields a message. -/
theorem C2_triggered_meter_values_timeout_witness :
    (sampleService.connectors.length : Int) ≤ INT_MAX ∧
    ∃ o, sampleService.takeTriggeredMeterValues sampleOps 40000 1 = some o ∧
      (∀ req, o.ret = some req → req.timeout = 120000) ∧
      (o.ret.isSome = true ↔
        (0 ≤ (1 : Int) ∧ (1 : Int) < (sampleService.connectors.length : Int) ∧
          ∃ c, sampleService.connectors[(1 : Int).toNat]? = some c ∧
            (sampleOps.takeTriggeredMeterValues
              { context := sampleService.context, meterStore := sampleService.meterStore,
                self := c }).2.isSome = true)) :=
  ⟨by decide, C2_triggered_meter_values_timeout sampleOps 40000 sampleService 1 (by decide)⟩

/-- C3, the claim as stated fails: on the sample service `abortTxMeterData` returns the
same (empty) value for the rejected id 5 and for the accepted id 0, and `readTxEnergyMeter`
returns null both for the rejected id 7 and for the accepted id 0. -/
theorem C3_return_value_does_not_tell_acceptance :
    (sampleService.abortTxMeterData sampleOps 5).map (fun o => o.invoked) = some [] ∧
    (sampleService.abortTxMeterData sampleOps 0).map (fun o => o.invoked)
      = some [(0, ConnectorMethod.abortTxMeterData)] ∧
    (sampleService.abortTxMeterData sampleOps 5).map (fun o => o.ret)
      = (sampleService.abortTxMeterData sampleOps 0).map (fun o => o.ret) ∧
    (sampleService.readTxEnergyMeter sampleOps 7 ()).map (fun o => (o.ret, o.invoked))
      = some (none, []) ∧
    (sampleService.readTxEnergyMeter sampleOps 0 ()).map (fun o => (o.ret, o.invoked))
      = some (none, [(0, ConnectorMethod.readTxEnergyMeter)]) := by
  decide

/-- C3 as amended: every entry point returns normally, whatever its arguments; and a
non-null result of a pointer-returning entry point (`readTxEnergyMeter`,
`takeTriggeredMeterValues`, `endTxMeterData`, `getStopTxMeterData`) means that the call was
accepted, that is, that a connector was invoked. -/
theorem C3_non_null_result_means_accepted (ops : MeteringConnectorOps χ μ κ S R V O D)
    (s : MeteringService χ μ κ) (defaultTimeout : Nat) (connectorId : Int)
    (uConnectorId : Nat) (transaction : Option Transaction) (meterValueSampler : S)
    (context : R) :
    (∃ o, s.addMeterValueSampler ops connectorId meterValueSampler = some o) ∧
    (∃ o, s.abortTxMeterData ops uConnectorId = some o) ∧
    (∃ o, s.beginTxMeterData ops transaction = some o) ∧
    (∃ o, s.readTxEnergyMeter ops connectorId context = some o ∧
      (o.ret ≠ none → o.invoked ≠ [])) ∧
    (∃ o, s.takeTriggeredMeterValues ops defaultTimeout connectorId = some o ∧
      (o.ret ≠ none → o.invoked ≠ [])) ∧
    (∃ o, s.endTxMeterData ops transaction = some o ∧ (o.ret ≠ none → o.invoked ≠ [])) ∧
    (∃ o, s.getStopTxMeterData ops transaction = some o ∧
      (o.ret ≠ none → o.invoked ≠ [])) := by
  refine ⟨?_, ?_, ?_, ?_, ?_, ?_, ?_⟩
  · unfold MeteringService.addMeterValueSampler
    by_cases hg : connectorId < 0 ∨ connectorId ≥ castInt s.connectors.length
    · rw [if_pos hg]; exact ⟨_, rfl⟩
    · rw [if_neg hg]
      obtain ⟨o, ho, _⟩ := callConnector_of_lt s (castSizeT connectorId) .addMeterValueSampler
        (fun r => (ops.addMeterValueSampler r meterValueSampler, ()))
        (castSizeT_lt_of_guard _ _ hg)
      exact ⟨o, ho⟩
  · unfold MeteringService.abortTxMeterData
    by_cases hg : uConnectorId ≥ s.connectors.length
    · rw [if_pos hg]; exact ⟨_, rfl⟩
    · rw [if_neg hg]
      obtain ⟨o, ho, _⟩ := callConnector_of_lt s uConnectorId .abortTxMeterData
        (fun r => (ops.abortTxMeterData r, ())) (by omega)
      exact ⟨o, ho⟩
  · unfold MeteringService.beginTxMeterData
    cases transaction with
    | none => exact ⟨_, rfl⟩
    | some tx =>
      simp only []
      by_cases hg : tx.getConnectorId ≥ s.connectors.length
      · rw [if_pos hg]; exact ⟨_, rfl⟩
      · rw [if_neg hg]
        obtain ⟨o, ho, _⟩ := callConnector_of_lt s tx.getConnectorId .beginTxMeterData
          (fun r => (ops.beginTxMeterData r tx, ())) (by omega)
        exact ⟨o, ho⟩
  · unfold MeteringService.readTxEnergyMeter
    by_cases hg : connectorId < 0 ∨ castSizeT connectorId ≥ s.connectors.length
    · rw [if_pos hg]; exact ⟨_, rfl, fun h => absurd rfl h⟩
    · rw [if_neg hg]
      obtain ⟨o, ho, hinv, _⟩ := callConnector_of_lt s (castSizeT connectorId)
        .readTxEnergyMeter (fun r => ops.readTxEnergyMeter r context) (by omega)
      exact ⟨o, ho, fun _ => by simp [hinv]⟩
  · unfold MeteringService.takeTriggeredMeterValues
    by_cases hg : connectorId < 0 ∨ connectorId ≥ castInt s.connectors.length
    · rw [if_pos hg]; exact ⟨_, rfl, fun h => absurd rfl h⟩
    · rw [if_neg hg]
      obtain ⟨o, ho, hinv, _⟩ := callConnector_of_lt s (castSizeT connectorId)
        .takeTriggeredMeterValues ops.takeTriggeredMeterValues
        (castSizeT_lt_of_guard _ _ hg)
      rw [ho]
      simp only []
      cases hmsg : o.ret with
      | none => exact ⟨_, rfl, fun h => absurd rfl h⟩
      | some msg => exact ⟨_, rfl, fun _ => by simp [hinv]⟩
  · unfold MeteringService.endTxMeterData
    cases transaction with
    | none => exact ⟨_, rfl, fun h => absurd rfl h⟩
    | some tx =>
      simp only []
      by_cases hg : tx.getConnectorId ≥ s.connectors.length
      · rw [if_pos hg]; exact ⟨_, rfl, fun h => absurd rfl h⟩
      · rw [if_neg hg]
        obtain ⟨o, ho, hinv, _⟩ := callConnector_of_lt s tx.getConnectorId .endTxMeterData
          (fun r => ops.endTxMeterData r tx) (by omega)
        exact ⟨o, ho, fun _ => by simp [hinv]⟩
  · unfold MeteringService.getStopTxMeterData
    cases transaction with
    | none => exact ⟨_, rfl, fun h => absurd rfl h⟩
    | some tx =>
      simp only []
      by_cases hg : tx.getConnectorId ≥ s.connectors.length
      · rw [if_pos hg]; exact ⟨_, rfl, fun h => absurd rfl h⟩
      · rw [if_neg hg]
        obtain ⟨o, ho, hinv, _⟩ := callConnector_of_lt s tx.getConnectorId
          .getStopTxMeterData (fun r => ops.getStopTxMeterData r tx) (by omega)
        exact ⟨o, ho, fun _ => by simp [hinv]⟩

/-- C4: a service constructed with `numConn >= 0` holds exactly `numConn` connectors, the
connector at index `i` was constructed with connector id `i`, and the ids the service
accepts (the ids for which `addMeterValueSampler` reaches a connector, namely the one at
that index) are exactly `0 .. numConn - 1`. -/
theorem C4_constructed_connectors (ops : MeteringConnectorOps χ μ κ S R V O D) (context : χ)
    (meterStore : μ) (numConn : Int) (h0 : 0 ≤ numConn) (hint : IsInt numConn) :
    ((MeteringService.construct ops context numConn meterStore).connectors.length : Int)
      = numConn ∧
    (∀ i : Nat, (i : Int) < numConn →
      (MeteringService.construct ops context numConn meterStore).connectors[i]?
        = some (ops.construct context (i : Int) meterStore)) ∧
    (∀ (connectorId : Int) (meterValueSampler : S),
      (∃ o, (MeteringService.construct ops context numConn meterStore).addMeterValueSampler
              ops connectorId meterValueSampler = some o ∧
            o.invoked = [(connectorId.toNat, ConnectorMethod.addMeterValueSampler)])
        ↔ (0 ≤ connectorId ∧ connectorId < numConn)) := by
  have hconn := construct_connectors ops context numConn meterStore h0
  have hlen : ((MeteringService.construct ops context numConn meterStore).connectors.length
      : Int) = numConn := by
    rw [hconn]
    simp only [List.length_map, List.length_range]
    omega
  refine ⟨hlen, ?_, ?_⟩
  · intro i hi
    rw [hconn, List.getElem?_map, List.getElem?_range (by omega)]
    rfl
  · intro connectorId meterValueSampler
    have hc : castInt (MeteringService.construct ops context numConn meterStore).connectors.length
        = numConn := by
      rw [castInt_of_le _ (by rw [hlen]; exact hint.2), hlen]
    unfold MeteringService.addMeterValueSampler
    by_cases hg : connectorId < 0 ∨ connectorId ≥ castInt
        (MeteringService.construct ops context numConn meterStore).connectors.length
    · rw [if_pos hg]
      rw [hc] at hg
      constructor
      · rintro ⟨o, ho, hinv⟩
        cases ho
        cases hinv
      · intro h; omega
    · rw [if_neg hg]
      have hlt := castSizeT_lt_of_guard _ _ hg
      rw [hc] at hg
      have hidx : castSizeT connectorId = connectorId.toNat :=
        castSizeT_of_nonneg _ (by omega) (by have := hint.2; omega)
      obtain ⟨o, ho, hinv, _⟩ := callConnector_of_lt
        (MeteringService.construct ops context numConn meterStore) (castSizeT connectorId)
        .addMeterValueSampler (fun r => (ops.addMeterValueSampler r meterValueSampler, ())) hlt
      constructor
      · intro _; omega
      · intro _
        exact ⟨o, ho, by rw [hinv, hidx]⟩

/-- C4 at a concrete input: the sample service, constructed with `numConn = 2`. -/
theorem C4_constructed_connectors_witness :
    ((0 : Int) ≤ 2 ∧ IsInt 2) ∧
    ((sampleService.connectors.length : Int) = 2 ∧
     (∀ i : Nat, (i : Int) < 2 →
       sampleService.connectors[i]? = some (sampleOps.construct () (i : Int) ())) ∧
     (∀ (connectorId : Int) (meterValueSampler : Unit),
       (∃ o, sampleService.addMeterValueSampler sampleOps connectorId meterValueSampler
               = some o ∧
             o.invoked = [(connectorId.toNat, ConnectorMethod.addMeterValueSampler)])
         ↔ (0 ≤ connectorId ∧ connectorId < 2))) :=
  ⟨⟨by decide, by decide⟩, C4_constructed_connectors sampleOps () () 2 (by decide) (by decide)⟩

end EntryPointTheorems

end MicroOcpp

/-! ## Theorems: FirmwareService -/

namespace MicroOcpp

/-- Reporting a status leaves the stage alone. -/
theorem report_stage (status : Ocpp16.FirmwareStatus) (fw : FirmwareService) :
    (FirmwareService.report status fw).1.stage = fw.stage := by
  unfold FirmwareService.report
  split <;> rfl

/-- A step of the stage machine keeps the stage, moves it to the following stage, to
InternalError, or back to Idle or AwaitDownload. -/
theorem advance_stage (inp : TickInput) (fw : FirmwareService) :
    ((fw.advance inp).1.stage = fw.stage ∨
      fw.stage.next = some (fw.advance inp).1.stage ∨
      (fw.advance inp).1.stage = UpdateStage.InternalError ∨
      ((fw.advance inp).1.stage = UpdateStage.Idle ∧
        (fw.advance inp).1.stage.toNat ≤ fw.stage.toNat) ∨
      ((fw.advance inp).1.stage = UpdateStage.AwaitDownload ∧
        (fw.advance inp).1.stage.toNat ≤ fw.stage.toNat)) ∧
    ((fw.advance inp).1.stage = UpdateStage.InternalError ∨
      (fw.advance inp).1.stage.toNat ≤ fw.stage.toNat + 1) := by
  obtain ⟨pb, bn, di, fds, ii, lrs, chk, loc, rd, retries, ri, dt, tt, stage⟩ := fw
  obtain ⟨now, ds, is, txr⟩ := inp
  cases stage <;> cases ds <;> cases is <;> cases txr <;>
    simp only [FirmwareService.advance, FirmwareService.report, FirmwareService.retryOrFail,
      FirmwareService.resetStage] <;>
    (repeat' split) <;> simp [UpdateStage.next, UpdateStage.toNat]

/-- C7: a new service starts in stage Idle, and a step of `loop()` either keeps the stage,
or moves it to the stage that follows in the order Idle, AwaitDownload, Downloading,
AfterDownload, AwaitInstallation, Installing, Installed, or moves it to InternalError, or
moves it back to Idle or AwaitDownload; so the stage after the step is InternalError or
lies at most one place further in that order. -/
theorem C7_update_stage_sequential (storedBuildNumber : String) (defaultTimestamp : Nat)
    (inp : TickInput) (fw : FirmwareService) :
    (FirmwareService.construct storedBuildNumber defaultTimestamp).stage = UpdateStage.Idle ∧
    ((fw.loop inp).1.stage = fw.stage ∨
      fw.stage.next = some (fw.loop inp).1.stage ∨
      (fw.loop inp).1.stage = UpdateStage.InternalError ∨
      ((fw.loop inp).1.stage = UpdateStage.Idle ∧
        (fw.loop inp).1.stage.toNat ≤ fw.stage.toNat) ∨
      ((fw.loop inp).1.stage = UpdateStage.AwaitDownload ∧
        (fw.loop inp).1.stage.toNat ≤ fw.stage.toNat)) ∧
    ((fw.loop inp).1.stage = UpdateStage.InternalError ∨
      (fw.loop inp).1.stage.toNat ≤ fw.stage.toNat + 1) := by
  refine ⟨rfl, ?_⟩
  unfold FirmwareService.loop
  split
  · exact advance_stage inp fw
  · split
    · rw [report_stage]
      simp [FirmwareService.resetStage, UpdateStage.toNat]
    · exact advance_stage inp { fw with checkedSuccessfulFwUpdate := true }

end MicroOcpp

/-! ## Theorems: Connector -/

namespace ArduinoOcpp

/-- C6: the availability levels are Operative = 2, InoperativeScheduled = 1 and
Inoperative = 0; every newly constructed Connector has `availabilityVolatile` equal to
`AVAILABILITY_OPERATIVE`; and so has the connector after a restart, whatever
`setAvailabilityVolatile` wrote before it. -/
theorem C6_volatile_availability_cleared (connectorId storedAvailability : Int)
    (level : Connector → Bool → Int) (before : Connector) (available : Bool) :
    AVAILABILITY_OPERATIVE = 2 ∧ AVAILABILITY_INOPERATIVE_SCHEDULED = 1 ∧
    AVAILABILITY_INOPERATIVE = 0 ∧
    (Connector.construct connectorId storedAvailability).availabilityVolatile
      = AVAILABILITY_OPERATIVE ∧
    ((before.setAvailabilityVolatile level available).afterRestart).availabilityVolatile
      = AVAILABILITY_OPERATIVE ∧
    (before.setAvailabilityVolatile level available).availabilityVolatile
      = level before available :=
  ⟨rfl, rfl, rfl, rfl, rfl, rfl⟩

end ArduinoOcpp

/-! ## Theorems: the validator scans within the string and halts -/

namespace MicroOcpp

/-- A read that succeeds is a read at or before the terminating NUL. -/
theorem deref_some_le (csl : List Char) (i : Nat) (c : Char) (h : deref csl i = some c) :
    i ≤ csl.length := by
  unfold deref memory at h
  by_contra hlt
  rw [List.getElem?_eq_none (by simp; omega)] at h
  cases h

/-- The read at the end of the string yields the NUL. -/
theorem deref_length (csl : List Char) : deref csl csl.length = some NUL := by
  unfold deref memory
  simp

/-- A read that yields a character other than NUL is a read inside the string. -/
theorem deref_ne_nul_lt (csl : List Char) (i : Nat) (c : Char) (h : deref csl i = some c)
    (hc : c ≠ NUL) : i < csl.length := by
  have hle := deref_some_le csl i c h
  rcases Nat.lt_or_ge i csl.length with hlt | hge
  · exact hlt
  · have : i = csl.length := by omega
    subst this
    rw [deref_length] at h
    cases h
    exact absurd rfl hc

/-- Every position up to the terminating NUL can be read. -/
theorem deref_of_le (csl : List Char) (i : Nat) (h : i ≤ csl.length) :
    ∃ c, deref csl i = some c := by
  unfold deref memory
  have hlt : i < (csl ++ [NUL]).length := by simp; omega
  exact ⟨_, List.getElem?_eq_getElem hlt⟩

/-- The inner loop started at `r <= length` ends at an `r2` with `r <= r2 <= length`, and
reads only positions up to the length. -/
theorem scanEntry_within (csl : List Char) :
    ∀ (fuel r : Nat), r ≤ csl.length → csl.length - r < fuel →
      ∃ r2 log, scanEntry csl fuel r = .ok (r2, log) ∧ r ≤ r2 ∧ r2 ≤ csl.length ∧
        (∀ e ∈ log, ∃ p, e = Event.read p ∧ p ≤ csl.length) := by
  intro fuel
  induction fuel with
  | zero => intro r _ h; omega
  | succ n ih =>
    intro r hr hf
    obtain ⟨c, hc⟩ := deref_of_le csl r hr
    rw [scanEntry, hc]
    simp only []
    by_cases hcont : c ≠ NUL ∧ c ≠ COMMA
    · rw [if_pos hcont]
      have hlt := deref_ne_nul_lt csl r c hc hcont.1
      obtain ⟨r2, log, hrun, h1, h2, h3⟩ := ih (r + 1) (by omega) (by omega)
      rw [hrun]
      refine ⟨r2, _, rfl, by omega, h2, ?_⟩
      intro e he
      rcases List.mem_cons.mp he with rfl | he
      · exact ⟨r, rfl, hr⟩
      · exact h3 e he
    · rw [if_neg hcont]
      refine ⟨r, _, rfl, le_refl _, hr, ?_⟩
      intro e he
      rw [List.mem_singleton] at he
      exact ⟨r, he, hr⟩

/-- The connector loop logs no read. -/
theorem findSampler_no_read {κ : Type} (ex : κ → List Char → Bool) (entry : List Char) :
    ∀ (connectors : List κ) (cId : Nat) (e : Event),
      e ∈ (findSampler ex entry connectors cId).2 → ∀ p, e ≠ Event.read p := by
  intro connectors
  induction connectors with
  | nil => intro cId e he; simp [findSampler] at he
  | cons c rest ih =>
    intro cId e he p
    rw [findSampler] at he
    by_cases hx : ex c entry = true
    · rw [if_pos hx] at he
      simp only [List.mem_singleton] at he
      rw [he]
      exact fun h => by cases h
    · rw [if_neg hx] at he
      simp only [List.mem_cons] at he
      rcases he with rfl | he
      · exact fun h => by cases h
      · exact ih (cId + 1) e he p

/-- One pass of the outer loop from an `l <= length` reads only positions up to the length,
and when it returns to the loop head the new `l` is larger and still at most the length. -/
theorem outerPass_within {κ : Type} (ex : κ → List Char → Bool) (connectors : List κ)
    (csl : List Char) (isValid : Bool) (l : Nat) (hl : l ≤ csl.length) :
    ∃ pass log, outerPass ex connectors csl isValid l = .ok (pass, log) ∧
      (∀ p, Event.read p ∈ log → p ≤ csl.length) ∧
      (∀ l2, pass = Pass.again l2 → l < l2 ∧ l2 ≤ csl.length) := by
  obtain ⟨c, hc⟩ := deref_of_le csl l hl
  unfold outerPass
  rw [hc]
  simp only []
  by_cases hnul : c = NUL
  · rw [if_pos hnul]
    refine ⟨_, _, rfl, ?_, ?_⟩
    · intro p hp
      simp only [List.mem_singleton, Event.read.injEq] at hp
      omega
    · intro l2 h; cases h
  · rw [if_neg hnul]
    have hlt := deref_ne_nul_lt csl l c hc hnul
    by_cases hcomma : c = COMMA
    · rw [if_pos hcomma]
      refine ⟨_, _, rfl, ?_, ?_⟩
      · intro p hp
        simp only [List.mem_singleton, Event.read.injEq] at hp
        omega
      · intro l2 h
        cases h
        omega
    · rw [if_neg hcomma]
      obtain ⟨r, log, hrun, h1, h2, h3⟩ :=
        scanEntry_within csl (csl.length + 1) (l + 1) (by omega) (by omega)
      rw [hrun]
      simp only []
      have hreads : ∀ p, Event.read p ∈ Event.read l :: log ++
          (findSampler ex (List.take (r - l) (List.drop l (memory csl))) connectors 0).2 →
          p ≤ csl.length := by
        intro p hp
        simp only [List.cons_append, List.mem_cons, Event.read.injEq, List.mem_append] at hp
        rcases hp with rfl | hp | hp
        · exact hl
        · obtain ⟨q, hq, hqle⟩ := h3 _ hp
          cases hq
          exact hqle
        · exact absurd rfl (findSampler_no_read ex _ connectors 0 _ hp p)
      split
      · refine ⟨_, _, rfl, hreads, ?_⟩
        intro l2 h; cases h
      · refine ⟨_, _, rfl, hreads, ?_⟩
        intro l2 h
        cases h
        omega

/-- The outer loop started at an `l <= length` with more fuel than `length - l` returns a
verdict, and reads only positions up to the length. -/
theorem scanList_within {κ : Type} (ex : κ → List Char → Bool) (connectors : List κ)
    (csl : List Char) :
    ∀ (fuel : Nat) (isValid : Bool) (l : Nat), l ≤ csl.length → csl.length - l < fuel →
      ∃ v log, scanList ex connectors csl fuel isValid l = .ok (v, log) ∧
        (∀ p, Event.read p ∈ log → p ≤ csl.length) := by
  intro fuel
  induction fuel with
  | zero => intro _ l _ h; omega
  | succ n ih =>
    intro isValid l hl hf
    obtain ⟨pass, log, hrun, hreads, hnext⟩ := outerPass_within ex connectors csl isValid l hl
    rw [scanList, hrun]
    cases pass with
    | leave v => exact ⟨v, log, rfl, hreads⟩
    | again l2 =>
      obtain ⟨hlt, hle⟩ := hnext l2 rfl
      obtain ⟨v, log2, hrun2, hreads2⟩ := ih isValid l2 hle (by omega)
      simp only []
      rw [hrun2]
      refine ⟨v, log ++ log2, rfl, ?_⟩
      intro p hp
      rcases List.mem_append.mp hp with hp | hp
      · exact hreads p hp
      · exact hreads2 p hp

section ValidatorSafety

variable {χ μ κ S R V O D : Type}

/-- C9: for every string the scan of the validator returns a verdict, so it halts and reads
no character behind the terminating NUL; every position it reads is at most the length of
the string; and a pass of the outer loop that starts at an `l` up to the length reads only
such positions and, when it returns to the loop head, has made `l` strictly larger and left
it at most the length. -/
theorem C9_scan_halts_within_string (ops : MeteringConnectorOps χ μ κ S R V O D)
    (s : MeteringService χ μ κ) (csl : List Char) (isValid : Bool) (l : Nat)
    (hl : l ≤ csl.length) :
    (∃ v log, validateSelectString ops s csl = .ok (v, log) ∧
      (∀ p, Event.read p ∈ log → p ≤ csl.length)) ∧
    (∃ pass log, outerPass ops.existsSampler s.connectors csl isValid l = .ok (pass, log) ∧
      (∀ p, Event.read p ∈ log → p ≤ csl.length) ∧
      (∀ l2, pass = Pass.again l2 → l < l2 ∧ l2 ≤ csl.length)) :=
  ⟨scanList_within ops.existsSampler s.connectors csl (csl.length + 1) true 0
      (Nat.zero_le _) (by omega),
    outerPass_within ops.existsSampler s.connectors csl isValid l hl⟩

/-- C9 at a concrete input: the string "E,EE" and the pass that starts at its entry "EE". -/
theorem C9_scan_halts_within_string_witness :
    2 ≤ "E,EE".toList.length ∧
    ((∃ v log, validateSelectString sampleOps sampleService "E,EE".toList = .ok (v, log) ∧
      (∀ p, Event.read p ∈ log → p ≤ "E,EE".toList.length)) ∧
    (∃ pass log, outerPass sampleOps.existsSampler sampleService.connectors "E,EE".toList
        true 2 = .ok (pass, log) ∧
      (∀ p, Event.read p ∈ log → p ≤ "E,EE".toList.length) ∧
      (∀ l2, pass = Pass.again l2 → 2 < l2 ∧ l2 ≤ "E,EE".toList.length))) :=
  ⟨by decide, C9_scan_halts_within_string sampleOps sampleService "E,EE".toList true 2
    (by decide)⟩

end ValidatorSafety

end MicroOcpp

/-! ## Theorems: the verdict of the validator -/

namespace MicroOcpp

/-- The read at the end of a prefix yields the character that follows the prefix. -/
theorem deref_append_cons (pre : List Char) (c : Char) (rest : List Char) :
    deref (pre ++ c :: rest) pre.length = some c := by
  unfold deref memory
  rw [List.append_assoc, List.getElem?_append_right (le_refl _)]
  simp

/-- The empty string has no entry. -/
theorem entriesOf_nil : entriesOf [] = [] := by
  simp [entriesOf]

/-- A leading comma contributes no entry. -/
theorem entriesOf_comma (t : List Char) : entriesOf (COMMA :: t) = entriesOf t := by
  unfold entriesOf List.splitOn
  rw [List.splitOnP_cons]
  simp

/-- A leading non-empty comma-free piece, followed by the end of the string or by a comma,
is the first entry. -/
theorem entriesOf_entry (c : Char) (tw rest : List Char) (hc : c ≠ COMMA)
    (htw : ∀ x ∈ tw, x ≠ COMMA) (hrest : rest = [] ∨ ∃ t, rest = COMMA :: t) :
    entriesOf (c :: (tw ++ rest)) = (c :: tw) :: entriesOf rest := by
  have hfree : ∀ x ∈ c :: tw, ¬ ((fun y => y == COMMA) x = true) := by
    intro x hx
    rcases List.mem_cons.mp hx with rfl | hx
    · simpa using hc
    · simpa using htw x hx
  rcases hrest with rfl | ⟨t, rfl⟩
  · rw [List.append_nil, entriesOf_nil]
    unfold entriesOf List.splitOn
    rw [List.splitOnP_eq_single _ _ hfree]
    simp
  · rw [entriesOf_comma]
    unfold entriesOf List.splitOn
    have := List.splitOnP_first (fun y => y == COMMA) (c :: tw) hfree COMMA (by simp) t
    rw [List.cons_append] at this
    rw [this]
    simp

/-- A string without NUL splits into a leading comma-free piece and a rest that is empty
or starts with a comma. -/
theorem entry_split (t : List Char) (h : NUL ∉ t) :
    ∃ tw rest, t = tw ++ rest ∧ (∀ x ∈ tw, x ≠ NUL ∧ x ≠ COMMA) ∧
      (rest = [] ∨ ∃ t2, rest = COMMA :: t2) ∧ NUL ∉ rest ∧ rest.length ≤ t.length := by
  induction t with
  | nil => exact ⟨[], [], rfl, by simp, Or.inl rfl, by simp, le_refl _⟩
  | cons x t ih =>
    have hx : x ≠ NUL := fun hx => h (by simp [hx])
    have ht : NUL ∉ t := fun ht => h (List.mem_cons_of_mem _ ht)
    by_cases hcomma : x = COMMA
    · exact ⟨[], x :: t, rfl, by simp, Or.inr ⟨t, by rw [hcomma]⟩, h, le_refl _⟩
    · obtain ⟨tw, rest, heq, htw, hrest, hnul, hlen⟩ := ih ht
      refine ⟨x :: tw, rest, by rw [heq]; rfl, ?_, hrest, hnul, ?_⟩
      · intro y hy
        rcases List.mem_cons.mp hy with rfl | hy
        · exact ⟨hx, hcomma⟩
        · exact htw y hy
      · simp only [List.length_cons]
        omega

/-- The inner loop runs over a comma-free piece and stops behind it. -/
theorem scanEntry_run :
    ∀ (tw pre rest : List Char) (fuel : Nat), (∀ x ∈ tw, x ≠ NUL ∧ x ≠ COMMA) →
      (rest = [] ∨ ∃ t, rest = COMMA :: t) → tw.length < fuel →
      ∃ log, scanEntry (pre ++ (tw ++ rest)) fuel pre.length
          = .ok (pre.length + tw.length, log) ∧ ∀ e ∈ log, ∃ p, e = Event.read p := by
  intro tw
  induction tw with
  | nil =>
    intro pre rest fuel _ hrest hf
    obtain ⟨m, rfl⟩ : ∃ m, fuel = m + 1 := ⟨fuel - 1, by simp at hf; omega⟩
    have hstop : ∃ c, deref (pre ++ ([] ++ rest)) pre.length = some c ∧
        ¬ (c ≠ NUL ∧ c ≠ COMMA) := by
      rcases hrest with rfl | ⟨t, rfl⟩
      · refine ⟨NUL, ?_, by simp⟩
        simpa using deref_length pre
      · refine ⟨COMMA, ?_, by simp⟩
        simpa using deref_append_cons pre COMMA t
    obtain ⟨c, hc, hcond⟩ := hstop
    rw [scanEntry, hc]
    simp only []
    rw [if_neg hcond]
    exact ⟨_, rfl, by simp⟩
  | cons x tw ih =>
    intro pre rest fuel htw hrest hf
    obtain ⟨m, rfl⟩ : ∃ m, fuel = m + 1 := ⟨fuel - 1, by simp at hf; omega⟩
    have hx := htw x (List.mem_cons_self _ _)
    have hd : deref (pre ++ (x :: tw ++ rest)) pre.length = some x := by
      simpa using deref_append_cons pre x (tw ++ rest)
    rw [scanEntry, hd]
    simp only []
    rw [if_pos hx]
    obtain ⟨log, hrun, hlog⟩ := ih (pre ++ [x]) rest m
      (fun y hy => htw y (List.mem_cons_of_mem _ hy)) hrest
      (by simp only [List.length_cons] at hf; omega)
    simp only [List.append_assoc, List.singleton_append, List.length_append,
      List.length_singleton] at hrun
    simp only [List.cons_append]
    rw [hrun]
    refine ⟨_, by simp only [List.length_cons]; congr 2; omega, ?_⟩
    intro e he
    rcases List.mem_cons.mp he with rfl | he
    · exact ⟨_, rfl⟩
    · exact hlog e he

/-- The connector loop finds a sampler exactly when some connector has one, and asks
connectors of the vector only, for the entry it was given. -/
theorem findSampler_run {κ : Type} (ex : κ → List Char → Bool) (entry : List Char) :
    ∀ (connectors : List κ) (cId : Nat),
      (findSampler ex entry connectors cId).1 = connectors.any (fun c => ex c entry) ∧
      ∀ e ∈ (findSampler ex entry connectors cId).2,
        ∃ k, e = Event.existsSampler k entry ∧ k < cId + connectors.length := by
  intro connectors
  induction connectors with
  | nil => intro cId; simp [findSampler]
  | cons c rest ih =>
    intro cId
    rw [findSampler]
    by_cases hx : ex c entry = true
    · rw [if_pos hx]
      refine ⟨by simp [hx], ?_⟩
      intro e he
      simp only [List.mem_singleton] at he
      exact ⟨cId, he, by simp⟩
    · rw [if_neg hx]
      obtain ⟨h1, h2⟩ := ih (cId + 1)
      refine ⟨by simp [hx, h1], ?_⟩
      intro e he
      simp only [List.mem_cons] at he
      rcases he with rfl | he
      · exact ⟨cId, rfl, by simp⟩
      · obtain ⟨k, hk, hlt⟩ := h2 e he
        exact ⟨k, hk, by simp only [List.length_cons]; omega⟩

/-- The characters handed to `existsSampler` are the piece the inner loop ran over. -/
theorem entry_eq (pre : List Char) (c : Char) (tw rest : List Char) :
    List.take (pre.length + 1 + tw.length - pre.length)
      (List.drop pre.length (memory (pre ++ c :: (tw ++ rest)))) = c :: tw := by
  have h1 : pre.length + 1 + tw.length - pre.length = (c :: tw).length := by
    simp only [List.length_cons]; omega
  have h2 : memory (pre ++ c :: (tw ++ rest)) = pre ++ ((c :: tw) ++ (rest ++ [NUL])) := by
    unfold memory; simp
  rw [h1, h2, List.drop_left, List.take_left]

/-- One pass over an entry: the loop goes on behind the entry when a connector knows it and
is left with verdict false otherwise. -/
theorem outerPass_entry {κ : Type} (ex : κ → List Char → Bool) (connectors : List κ)
    (pre : List Char) (c : Char) (tw rest : List Char) (isValid : Bool)
    (hnul : c ≠ NUL) (hcomma : c ≠ COMMA) (htw : ∀ x ∈ tw, x ≠ NUL ∧ x ≠ COMMA)
    (hrest : rest = [] ∨ ∃ t, rest = COMMA :: t) :
    ∃ log, outerPass ex connectors (pre ++ c :: (tw ++ rest)) isValid pre.length
        = .ok (if connectors.any (fun k => ex k (c :: tw))
                then Pass.again (pre.length + 1 + tw.length) else Pass.leave false, log) ∧
      ∀ cId e, Event.existsSampler cId e ∈ log → cId < connectors.length ∧ e = c :: tw := by
  obtain ⟨log, hrun, hlog⟩ := scanEntry_run tw (pre ++ [c]) rest
    ((pre ++ c :: (tw ++ rest)).length + 1) htw hrest (by simp; omega)
  simp only [List.append_assoc, List.singleton_append, List.length_append,
    List.length_singleton] at hrun
  unfold outerPass
  rw [deref_append_cons]
  simp only []
  rw [if_neg hnul, if_neg hcomma]
  simp only [List.length_append] at hrun ⊢
  rw [hrun]
  simp only []
  rw [entry_eq]
  obtain ⟨hfound, hcalls⟩ := findSampler_run ex (c :: tw) connectors 0
  rw [hfound]
  have hev : ∀ cId e, Event.existsSampler cId e ∈
      Event.read pre.length :: log ++ (findSampler ex (c :: tw) connectors 0).2 →
      cId < connectors.length ∧ e = c :: tw := by
    intro cId e he
    simp only [List.cons_append, List.mem_cons, List.mem_append] at he
    rcases he with he | he | he
    · cases he
    · obtain ⟨p, hp⟩ := hlog _ he
      cases hp
    · obtain ⟨k, hk, hlt⟩ := hcalls _ he
      cases hk
      exact ⟨by omega, rfl⟩
  cases hany : connectors.any (fun k => ex k (c :: tw))
  · exact ⟨_, rfl, hev⟩
  · exact ⟨_, rfl, hev⟩

/-- One pass at the end of the string: the loop is left through its condition. -/
theorem outerPass_end {κ : Type} (ex : κ → List Char → Bool) (connectors : List κ)
    (pre : List Char) (isValid : Bool) :
    outerPass ex connectors pre isValid pre.length
      = .ok (Pass.leave isValid, [Event.read pre.length]) := by
  unfold outerPass
  rw [deref_length]
  simp

/-- One pass at a comma: the loop goes on behind the comma. -/
theorem outerPass_comma {κ : Type} (ex : κ → List Char → Bool) (connectors : List κ)
    (pre t : List Char) (isValid : Bool) :
    outerPass ex connectors (pre ++ COMMA :: t) isValid pre.length
      = .ok (Pass.again (pre.length + 1), [Event.read pre.length]) := by
  unfold outerPass
  rw [deref_append_cons]
  have h : COMMA ≠ NUL := by decide
  simp [h]

/-- The verdict the specification describes, entry by entry. -/
theorem allEntriesKnown_entry {κ : Type} (ex : κ → List Char → Bool) (connectors : List κ)
    (c : Char) (tw rest : List Char) (hc : c ≠ COMMA) (htw : ∀ x ∈ tw, x ≠ COMMA)
    (hrest : rest = [] ∨ ∃ t, rest = COMMA :: t) :
    allEntriesKnown ex connectors (c :: (tw ++ rest))
      = (connectors.any (fun k => ex k (c :: tw)) && allEntriesKnown ex connectors rest) := by
  unfold allEntriesKnown
  rw [entriesOf_entry c tw rest hc htw hrest, List.all_cons]

/-- The scan from the end of a prefix computes the verdict the specification describes for
the rest of the string, and calls `existsSampler` only on connectors of the vector and only
for entries of the rest, each non-empty and free of commas. -/
theorem scanList_run {κ : Type} (ex : κ → List Char → Bool) (connectors : List κ) :
    ∀ (n : Nat) (suf pre : List Char) (fuel : Nat), suf.length ≤ n → NUL ∉ suf →
      suf.length < fuel →
      ∃ log, scanList ex connectors (pre ++ suf) fuel true pre.length
          = .ok (allEntriesKnown ex connectors suf, log) ∧
        ∀ cId e, Event.existsSampler cId e ∈ log →
          cId < connectors.length ∧ e ∈ entriesOf suf ∧ e ≠ [] ∧ COMMA ∉ e := by
  intro n
  induction n with
  | zero =>
    intro suf pre fuel hlen _ hf
    have hsuf : suf = [] := List.length_eq_zero.mp (by omega)
    subst hsuf
    obtain ⟨m, rfl⟩ : ∃ m, fuel = m + 1 := ⟨fuel - 1, by simp at hf; omega⟩
    rw [List.append_nil, scanList, outerPass_end]
    refine ⟨_, rfl, ?_⟩
    intro cId e he
    simp at he
  | succ n ih =>
    intro suf pre fuel hlen hnul hf
    obtain ⟨m, rfl⟩ : ∃ m, fuel = m + 1 := ⟨fuel - 1, by omega⟩
    cases suf with
    | nil =>
      rw [List.append_nil, scanList, outerPass_end]
      refine ⟨_, rfl, ?_⟩
      intro cId e he
      simp at he
    | cons c t =>
      have hc : c ≠ NUL := fun hc => hnul (by simp [hc])
      have ht : NUL ∉ t := fun ht => hnul (List.mem_cons_of_mem _ ht)
      simp only [List.length_cons] at hlen hf
      by_cases hcomma : c = COMMA
      · subst hcomma
        obtain ⟨log, hrun, hlog⟩ := ih t (pre ++ [COMMA]) m (by omega) ht (by omega)
        simp only [List.append_assoc, List.singleton_append, List.length_append,
          List.length_singleton] at hrun
        rw [scanList, outerPass_comma]
        simp only []
        rw [hrun]
        refine ⟨_, by unfold allEntriesKnown; rw [entriesOf_comma], ?_⟩
        intro cId e he
        simp only [List.singleton_append, List.mem_cons] at he
        rcases he with he | he
        · cases he
        · rw [entriesOf_comma]
          exact hlog cId e he
      · obtain ⟨tw, rest, heq, htw, hrest, hnulrest, hrestlen⟩ := entry_split t ht
        subst heq
        have htwc : ∀ x ∈ tw, x ≠ COMMA := fun x hx => (htw x hx).2
        obtain ⟨log, hpass, hcalls⟩ := outerPass_entry ex connectors pre c tw rest true
          hc hcomma htw hrest
        have hentries := entriesOf_entry c tw rest hcomma htwc hrest
        have hmine : ∀ cId e, Event.existsSampler cId e ∈ log →
            cId < connectors.length ∧ e ∈ entriesOf (c :: (tw ++ rest)) ∧ e ≠ [] ∧
              COMMA ∉ e := by
          intro cId e he
          obtain ⟨hk, rfl⟩ := hcalls cId e he
          refine ⟨hk, by rw [hentries]; exact List.mem_cons_self _ _, by simp, ?_⟩
          intro hmem
          rcases List.mem_cons.mp hmem with h | h
          · exact hcomma h.symm
          · exact htwc _ h rfl
        rw [scanList, hpass, allEntriesKnown_entry ex connectors c tw rest hcomma htwc hrest]
        cases hany : connectors.any (fun k => ex k (c :: tw))
        · simp only [Bool.false_and]
          exact ⟨_, rfl, hmine⟩
        · obtain ⟨log2, hrun, hlog2⟩ := ih rest (pre ++ c :: tw) m
            (by simp only [List.length_append] at hrestlen hlen; omega) hnulrest
            (by simp only [List.length_append] at hrestlen hf; omega)
          simp only [List.append_assoc, List.cons_append, List.length_append,
            List.length_cons] at hrun
          simp only [Bool.true_and, if_true]
          have hidx : pre.length + 1 + tw.length = pre.length + (tw.length + 1) := by omega
          rw [hidx, hrun]
          refine ⟨_, rfl, ?_⟩
          intro cId e he
          rcases List.mem_append.mp he with he | he
          · exact hmine cId e he
          · obtain ⟨h1, h2, h3, h4⟩ := hlog2 cId e he
            exact ⟨h1, by rw [hentries]; exact List.mem_cons_of_mem _ h2, h3, h4⟩

/-- The verdict the specification describes, in words of the pieces between the commas. -/
theorem allEntriesKnown_iff {κ : Type} (ex : κ → List Char → Bool) (connectors : List κ)
    (csl : List Char) :
    allEntriesKnown ex connectors csl = true ↔
      ∀ e ∈ csl.splitOn COMMA, e ≠ [] → ∃ c ∈ connectors, ex c e = true := by
  unfold allEntriesKnown entriesOf
  simp only [List.all_eq_true, List.mem_filter, List.any_eq_true, Bool.not_eq_true_eq_eq_false,
    List.isEmpty_eq_false, and_imp]

/-- The entry list of two strings joined by a comma. -/
theorem entriesOf_join (a b : List Char) :
    entriesOf (a ++ COMMA :: b) = entriesOf a ++ entriesOf b := by
  have hsplit : ∀ a : List Char, (a ++ COMMA :: b).splitOnP (fun y => y == COMMA)
      = a.splitOnP (fun y => y == COMMA) ++ b.splitOnP (fun y => y == COMMA) := by
    intro a
    induction a with
    | nil => rw [List.nil_append, List.splitOnP_cons]; simp
    | cons x a ih =>
      rw [List.cons_append, List.splitOnP_cons, List.splitOnP_cons, ih]
      by_cases hx : (x == COMMA) = true
      · simp [hx]
      · simp only [hx, if_false]
        cases hsp : List.splitOnP (fun y => y == COMMA) a with
        | nil => exact absurd hsp (List.splitOnP_ne_nil _ _)
        | cons hd tl => rfl
  unfold entriesOf List.splitOn
  rw [hsplit, List.filter_append]

section ValidatorVerdict

variable {χ μ κ S R V O D : Type}

/-- The validator returns the verdict the specification describes. -/
theorem verdict_eq (ops : MeteringConnectorOps χ μ κ S R V O D) (s : MeteringService χ μ κ)
    (csl : List Char) (hnul : NUL ∉ csl) :
    verdict ops s csl = some (allEntriesKnown ops.existsSampler s.connectors csl) := by
  obtain ⟨log, hrun, _⟩ := scanList_run ops.existsSampler s.connectors csl.length csl []
    (csl.length + 1) (le_refl _) hnul (by omega)
  unfold verdict validateSelectString
  rw [List.nil_append, List.length_nil] at hrun
  rw [hrun]

/-- C8: on a string without interior NUL the validator returns a verdict; the verdict is
true exactly when every non-empty piece obtained by splitting the string at the commas is a
measurand for which `existsSampler` holds on at least one connector (the pieces are taken
verbatim: "E, E" has the entry " E", which is not the measurand "E"); `existsSampler` is
called only on connectors of the vector and only with such a piece, non-empty and free of
commas; the empty string, which is the factory default of StopTxnSampledData and
StopTxnAlignedData, is accepted; and this validator is the one registered for the four keys
MeterValuesSampledData, StopTxnSampledData, MeterValuesAlignedData and
StopTxnAlignedData. -/
theorem C8_validator_accepts_known_entries (ops : MeteringConnectorOps χ μ κ S R V O D)
    (s : MeteringService χ μ κ) (csl : List Char) (hnul : NUL ∉ csl) :
    (∃ v log, validateSelectString ops s csl = .ok (v, log) ∧
      (v = true ↔ ∀ e ∈ csl.splitOn COMMA, e ≠ [] →
        ∃ c ∈ s.connectors, ops.existsSampler c e = true) ∧
      (∀ cId e, Event.existsSampler cId e ∈ log →
        cId < s.connectors.length ∧ e ∈ csl.splitOn COMMA ∧ e ≠ [] ∧ COMMA ∉ e)) ∧
    verdict ops s [] = some true ∧
    (∀ key ∈ ["StopTxnSampledData", "StopTxnAlignedData"],
      factoryDefaults.lookup key = some "" ∧ "".toList = []) ∧
    (verdict sampleOps sampleService "E,E".toList = some true ∧
      verdict sampleOps sampleService "E, E".toList = some false) ∧
    (∀ key ∈ ["MeterValuesSampledData", "StopTxnSampledData", "MeterValuesAlignedData",
        "StopTxnAlignedData"],
      registeredValidators.lookup key = some ValidatorKind.validateSelectString) := by
  refine ⟨?_, ?_, by decide, ⟨by decide, by decide⟩, by decide⟩
  · obtain ⟨log, hrun, hlog⟩ := scanList_run ops.existsSampler s.connectors csl.length csl []
      (csl.length + 1) (le_refl _) hnul (by omega)
    rw [List.nil_append, List.length_nil] at hrun
    refine ⟨_, log, hrun, allEntriesKnown_iff _ _ _, ?_⟩
    intro cId e he
    obtain ⟨h1, h2, h3, h4⟩ := hlog cId e he
    refine ⟨h1, ?_, h3, h4⟩
    unfold entriesOf at h2
    exact (List.mem_filter.mp h2).1
  · rw [verdict_eq ops s [] (by simp)]
    simp [allEntriesKnown, entriesOf_nil]

/-- C8 at a concrete input: the string ",E,,EE," on the sample service. -/
theorem C8_validator_accepts_known_entries_witness :
    NUL ∉ ",E,,EE,".toList ∧
    ((∃ v log, validateSelectString sampleOps sampleService ",E,,EE,".toList = .ok (v, log) ∧
      (v = true ↔ ∀ e ∈ ",E,,EE,".toList.splitOn COMMA, e ≠ [] →
        ∃ c ∈ sampleService.connectors, sampleOps.existsSampler c e = true) ∧
      (∀ cId e, Event.existsSampler cId e ∈ log →
        cId < sampleService.connectors.length ∧ e ∈ ",E,,EE,".toList.splitOn COMMA ∧
          e ≠ [] ∧ COMMA ∉ e)) ∧
    verdict sampleOps sampleService [] = some true ∧
    (∀ key ∈ ["StopTxnSampledData", "StopTxnAlignedData"],
      factoryDefaults.lookup key = some "" ∧ "".toList = []) ∧
    (verdict sampleOps sampleService "E,E".toList = some true ∧
      verdict sampleOps sampleService "E, E".toList = some false) ∧
    (∀ key ∈ ["MeterValuesSampledData", "StopTxnSampledData", "MeterValuesAlignedData",
        "StopTxnAlignedData"],
      registeredValidators.lookup key = some ValidatorKind.validateSelectString)) :=
  ⟨by decide, C8_validator_accepts_known_entries sampleOps sampleService ",E,,EE,".toList
    (by decide)⟩

/-- C10: for strings `a` and `b` without interior NUL the validator accepts `a + "," + b`
exactly when it accepts `a` and accepts `b`; it returns the same for `b + "," + a`; and what
it returns is the verdict obtained by looking up every entry, without stopping at the first
unknown one. -/
theorem C10_validator_distributes_over_join (ops : MeteringConnectorOps χ μ κ S R V O D)
    (s : MeteringService χ μ κ) (a b : List Char) (ha : NUL ∉ a) (hb : NUL ∉ b) :
    ∃ va vb, verdict ops s a = some va ∧ verdict ops s b = some vb ∧
      verdict ops s (a ++ [COMMA] ++ b) = some (va && vb) ∧
      verdict ops s (b ++ [COMMA] ++ a) = verdict ops s (a ++ [COMMA] ++ b) ∧
      verdict ops s (a ++ [COMMA] ++ b)
        = some ((entriesOf (a ++ [COMMA] ++ b)).all
            (fun e => s.connectors.any (fun c => ops.existsSampler c e))) := by
  have hcomma : NUL ≠ COMMA := by decide
  have hab : NUL ∉ a ++ [COMMA] ++ b := by
    simp only [List.append_assoc, List.singleton_append, List.mem_append, List.mem_cons]
    tauto
  have hba : NUL ∉ b ++ [COMMA] ++ a := by
    simp only [List.append_assoc, List.singleton_append, List.mem_append, List.mem_cons]
    tauto
  have hjoin : ∀ x y : List Char, allEntriesKnown ops.existsSampler s.connectors
      (x ++ [COMMA] ++ y) = (allEntriesKnown ops.existsSampler s.connectors x &&
        allEntriesKnown ops.existsSampler s.connectors y) := by
    intro x y
    unfold allEntriesKnown
    rw [List.append_assoc, List.singleton_append, entriesOf_join, List.all_append]
  refine ⟨_, _, verdict_eq ops s a ha, verdict_eq ops s b hb, ?_, ?_, ?_⟩
  · rw [verdict_eq ops s _ hab, hjoin]
  · rw [verdict_eq ops s _ hab, verdict_eq ops s _ hba, hjoin, hjoin, Bool.and_comm]
  · rw [verdict_eq ops s _ hab]
    rfl

/-- C10 at a concrete input: the strings "E,EE" and "x" on the sample service. -/
theorem C10_validator_distributes_over_join_witness :
    (NUL ∉ "E,EE".toList ∧ NUL ∉ "x".toList) ∧
    ∃ va vb, verdict sampleOps sampleService "E,EE".toList = some va ∧
      verdict sampleOps sampleService "x".toList = some vb ∧
      verdict sampleOps sampleService ("E,EE".toList ++ [COMMA] ++ "x".toList)
        = some (va && vb) ∧
      verdict sampleOps sampleService ("x".toList ++ [COMMA] ++ "E,EE".toList)
        = verdict sampleOps sampleService ("E,EE".toList ++ [COMMA] ++ "x".toList) ∧
      verdict sampleOps sampleService ("E,EE".toList ++ [COMMA] ++ "x".toList)
        = some ((entriesOf ("E,EE".toList ++ [COMMA] ++ "x".toList)).all
            (fun e => sampleService.connectors.any (fun c => sampleOps.existsSampler c e))) :=
  ⟨⟨by decide, by decide⟩,
    C10_validator_distributes_over_join sampleOps sampleService "E,EE".toList "x".toList
      (by decide) (by decide)⟩

end ValidatorVerdict

end MicroOcpp
